import Mathlib

/-!
Verification of `flexible_cumulative_problem.py` (Rastion/flexible_cumulative_scheduling).

The file shallowly embeds the evaluator `FlexibleCumulativeProblem.evaluate_solution`
(lines 88-151 of the source), the instance reader `_read_instance` (lines 40-86), and
— for claims about Python's dynamic typing — a dynamically typed variant of the
evaluator operating on a `PyVal` universe, returning `Except PyErr Int` so that the
exceptions Python would raise are first-class values.

Machine integers: Python integers are unbounded, so `Int`/`Nat` model them exactly.
The penalty sentinel `1e9` (a Python float with the exact integral value 10^9) is
modelled as the integer `10 ^ 9`; every other score the evaluator produces is an
integer makespan, so the whole score range embeds into `Int`.
-/

/-- The fields of a `FlexibleCumulativeProblem` set by `__init__` (lines 36-38) that
`evaluate_solution` reads.  `nb_successors` and `horizon` are stored by the reader but
unused by the evaluator.  Successor ids are task indices (`Nat`); all other numeric data
are Python ints (`Int`). -/
structure Instance where
  nb_tasks : Nat
  nb_resources : Nat
  capacity : List Int
  task_processing_time_data : List (List Int)
  weights : List (List Int)
  successors : List (List Nat)
  nb_successors : List Nat := []
  horizon : Int := 0
deriving Repr, DecidableEq

/-- Line 101: `penalty = 1e9`.  The float `1e9` is exactly the integer `10 ^ 9`. -/
def penalty : Int := 10 ^ 9

/-- Line 118: `proc_time = self.task_processing_time_data[i][r]`. -/
def procTime (inst : Instance) (i r : Nat) : Int :=
  (inst.task_processing_time_data.getD i []).getD r 0

/-- Line 119: `weight = self.weights[r][i]`. -/
def weightOf (inst : Instance) (r i : Nat) : Int :=
  (inst.weights.getD r []).getD i 0

/-- One iteration of the loop at lines 112-123: resource-index check (line 116),
incompatibility check (line 121), and the finish-time assignment (line 123).
`none` models the early `return penalty`. -/
def taskCheck (inst : Instance) (task_resources start_times : List Int) (i : Nat) :
    Option Int :=
  if task_resources.getD i 0 < 0 ∨ (inst.nb_resources : Int) ≤ task_resources.getD i 0 then
    none
  else if procTime inst i ((task_resources.getD i 0).toNat) = 0 ∧
      weightOf inst ((task_resources.getD i 0).toNat) i = 0 then
    none
  else
    some (start_times.getD i 0 + procTime inst i ((task_resources.getD i 0).toNat))

/-- Runs a per-index check over a list of indices, collecting the produced values;
`none` anywhere aborts the whole loop (the Python early `return`). -/
def collectChecks (f : Nat → Option Int) : List Nat → Option (List Int)
  | [] => some []
  | i :: is =>
    match f i, collectChecks f is with
    | some v, some vs => some (v :: vs)
    | _, _ => none

/-- The loop at lines 112-123: either the filled `finish_times` array or `none` for the
early `return penalty`. -/
def computeFinishTimes (inst : Instance) (task_resources start_times : List Int) :
    Option (List Int) :=
  collectChecks (taskCheck inst task_resources start_times) (List.range inst.nb_tasks)

/-- Lines 126-129: the precedence check.  `true` means the loop falls through, i.e.
`finish_times[i] > start_times[succ]` for no task `i` and successor `succ`. -/
def precedenceOk (inst : Instance) (start_times finish_times : List Int) : Bool :=
  (List.range inst.nb_tasks).all fun i =>
    (inst.successors.getD i []).all fun succ =>
      finish_times.getD i 0 ≤ start_times.getD succ 0

/-- The comparison `key=lambda x: x[0]` used by `events.sort` at line 142: events are
ordered by timestamp only.  Python's `list.sort` is stable, as is
`List.insertionSort`. -/
def eventLE (a b : Int × Int) : Prop := a.1 ≤ b.1

instance : DecidableRel eventLE := fun a b => inferInstanceAs (Decidable (a.1 ≤ b.1))

instance : IsTotal (Int × Int) eventLE := ⟨fun a b => Int.le_total a.1 b.1⟩

instance : IsTrans (Int × Int) eventLE := ⟨fun _ _ _ h h' => le_trans h h'⟩

/-- Lines 133-141 restricted to the index list `is`: each task assigned to resource `r`
contributes `(st, w)` then `(ft, -w)`, in task-index order. -/
def eventsOf (inst : Instance) (task_resources start_times finish_times : List Int)
    (r : Nat) : List Nat → List (Int × Int)
  | [] => []
  | i :: is =>
    (if task_resources.getD i 0 = (r : Int) then
      [(start_times.getD i 0, weightOf inst r i),
       (finish_times.getD i 0, -(weightOf inst r i))]
     else []) ++ eventsOf inst task_resources start_times finish_times r is

/-- The event list built for resource `r` at lines 133-141. -/
def eventsFor (inst : Instance) (task_resources start_times finish_times : List Int)
    (r : Nat) : List (Int × Int) :=
  eventsOf inst task_resources start_times finish_times r (List.range inst.nb_tasks)

/-- Lines 143-147: the sweep over sorted events.  After *each* delta the running usage
is compared with the capacity; `false` models `return penalty`. -/
def sweep (cap : Int) : Int → List (Int × Int) → Bool
  | _, [] => true
  | usage, e :: rest =>
    if cap < usage + e.2 then false else sweep cap (usage + e.2) rest

/-- Lines 132-147: the cumulative check over all resources. -/
def capacityOk (inst : Instance) (task_resources start_times finish_times : List Int) :
    Bool :=
  (List.range inst.nb_resources).all fun r =>
    sweep (inst.capacity.getD r 0) 0
      (List.insertionSort eventLE (eventsFor inst task_resources start_times finish_times r))

/-- Line 150: `max(finish_times)`.  Python's `max` raises `ValueError` on an empty list;
that case (`nb_tasks = 0`) is outside the data model (§3 requires `nb_tasks` positive)
and is modelled by the default `0` here; the dynamic embedding below models the raise. -/
def pyMax (l : List Int) : Int := l.foldl max (l.headD 0)

/-- Lines 101-151: `evaluate_solution` on a well-typed candidate, i.e. a pair of two
integer lists.  The `isinstance`/`len == 2` test of line 103 is vacuous for this type
(see `evaluateDyn` for arbitrary candidates); the remaining checks appear in source
order: lengths (line 106), per-task resource validity (112-123), precedence (126-129),
cumulative capacity (132-147), makespan (150-151). -/
def evaluate_solution (inst : Instance) (solution : List Int × List Int) : Int :=
  if solution.1.length = inst.nb_tasks ∧ solution.2.length = inst.nb_tasks then
    match computeFinishTimes inst solution.1 solution.2 with
    | none => penalty
    | some finish_times =>
      if precedenceOk inst solution.2 finish_times then
        if capacityOk inst solution.1 solution.2 finish_times then pyMax finish_times
        else penalty
      else penalty
  else penalty

/-- Semantic resource usage on the index list `is`: total weight of the tasks among `is`
assigned to `r` whose half-open execution interval `[start, finish)` contains `t`. -/
def usageOn (inst : Instance) (task_resources start_times finish_times : List Int)
    (r : Nat) (t : Int) : List Nat → Int
  | [] => 0
  | i :: is =>
    (if task_resources.getD i 0 = (r : Int) ∧
        start_times.getD i 0 ≤ t ∧ t < finish_times.getD i 0 then
      weightOf inst r i
     else 0) + usageOn inst task_resources start_times finish_times r t is

/-- Semantic resource usage at instant `t`: the sum of weights of tasks assigned to `r`
active at `t` (spec §8, capacity property). -/
def usageAt (inst : Instance) (task_resources start_times finish_times : List Int)
    (r : Nat) (t : Int) : Int :=
  usageOn inst task_resources start_times finish_times r t (List.range inst.nb_tasks)

/-! ## Dynamic embedding

Python is dynamically typed: `evaluate_solution` takes an arbitrary object and its
operations (`len`, `<`, `>=`, `+`, indexing) raise `TypeError`/`IndexError` on values of
the wrong type.  `PyVal` is the universe of candidate values the claims range over
(ints, strings, lists, tuples) and `evaluateDyn` is the same function as
`evaluate_solution` with those dynamic semantics made explicit in `Except`. -/

/-- The Python exceptions relevant to this module. -/
inductive PyErr where
  | typeError
  | indexError
  | valueError
  | nameError
  | ioError
deriving Repr, DecidableEq

/-- Dynamically typed Python values a candidate solution can be built from. -/
inductive PyVal where
  | int (n : Int)
  | str (s : String)
  | list (xs : List PyVal)
  | tuple (xs : List PyVal)

/-- Line 103: `isinstance(solution, (list, tuple))`. -/
def pyIsListOrTuple : PyVal → Bool
  | .list _ => true
  | .tuple _ => true
  | _ => false

/-- Python `len`: defined on sequences, `TypeError` on ints. -/
def pyLen : PyVal → Except PyErr Nat
  | .list xs => Except.ok xs.length
  | .tuple xs => Except.ok xs.length
  | .str s => Except.ok s.length
  | .int _ => Except.error PyErr.typeError

/-- Python sequence indexing with a natural-number index: `IndexError` past the end,
`TypeError` on non-sequences.  Indexing a string yields a one-character string. -/
def pyGet : PyVal → Nat → Except PyErr PyVal
  | .list xs, i =>
    if i < xs.length then Except.ok (xs.getD i (.int 0)) else Except.error PyErr.indexError
  | .tuple xs, i =>
    if i < xs.length then Except.ok (xs.getD i (.int 0)) else Except.error PyErr.indexError
  | .str s, i =>
    if i < s.length then Except.ok (.str (String.mk [s.toList.getD i ' ']))
    else Except.error PyErr.indexError
  | .int _, _ => Except.error PyErr.typeError

/-- Python `v < m` with `m` an int: `TypeError` unless `v` is an int. -/
def pyLtInt (v : PyVal) (m : Int) : Except PyErr Bool :=
  match v with
  | .int n => Except.ok (n < m)
  | _ => Except.error PyErr.typeError

/-- Python `v >= m` with `m` an int: `TypeError` unless `v` is an int. -/
def pyGeInt (v : PyVal) (m : Int) : Except PyErr Bool :=
  match v with
  | .int n => Except.ok (m ≤ n)
  | _ => Except.error PyErr.typeError

/-- The int carried by a `PyVal`, as used where Python applies an int-only operation
(indexing a list with `v`, or `v + n`): `TypeError` on anything else. -/
def pyIntVal : PyVal → Except PyErr Int
  | .int n => Except.ok n
  | _ => Except.error PyErr.typeError

/-- Python `n > v` with `n` an int: `TypeError` unless `v` is an int. -/
def pyIntGtVal (n : Int) (v : PyVal) : Except PyErr Bool :=
  match v with
  | .int m => Except.ok (m < n)
  | _ => Except.error PyErr.typeError

/-- Python `max` (line 150): `ValueError` on an empty list. -/
def pyMaxE : List Int → Except PyErr Int
  | [] => Except.error PyErr.valueError
  | x :: xs => Except.ok (xs.foldl max x)

/-- The loop at lines 112-123 under dynamic typing.  For each index it fetches
`task_resources[i]` and `start_times[i]`, runs the checks of lines 116 and 121 (whose
comparisons raise `TypeError` on non-int entries), and computes
`finish_times[i] = st + proc_time` (which raises `TypeError` when `st` is not an int).
`Except.ok none` models `return penalty`; the `some` result collects, per task, the
int values of `(task_resources[i], start_times[i], finish_times[i])` — all provably
ints once this loop has passed. -/
def dynTaskLoop (inst : Instance) (task_resources start_times : PyVal) :
    List Nat → Except PyErr (Option (List (Int × Int × Int)))
  | [] => Except.ok (some [])
  | i :: is => do
    let r ← pyGet task_resources i
    let s ← pyGet start_times i
    let lt0 ← pyLtInt r 0
    if lt0 then return none
    else do
      let geN ← pyGeInt r (inst.nb_resources : Int)
      if geN then return none
      else do
        let rv ← pyIntVal r
        let rn := rv.toNat
        if procTime inst i rn = 0 ∧ weightOf inst rn i = 0 then return none
        else do
          let sv ← pyIntVal s
          match ← dynTaskLoop inst task_resources start_times is with
          | none => return none
          | some rest => return some ((rv, sv, sv + procTime inst i rn) :: rest)

/-- The inner loop of lines 127-129: `start_times[succ]` is fetched dynamically
(`IndexError` when `succ` is out of range) and compared with the int
`finish_times[i]`. -/
def dynPrecInner (start_times : PyVal) (fi : Int) : List Nat → Except PyErr Bool
  | [] => Except.ok true
  | j :: js => do
    let v ← pyGet start_times j
    let b ← pyIntGtVal fi v
    if b then return false else dynPrecInner start_times fi js

/-- The outer loop of lines 126-129 under dynamic typing. -/
def dynPrecLoop (inst : Instance) (start_times : PyVal) (fins : List Int) :
    List Nat → Except PyErr Bool
  | [] => Except.ok true
  | i :: is => do
    let ok ← dynPrecInner start_times (fins.getD i 0) (inst.successors.getD i [])
    if ok then dynPrecLoop inst start_times fins is else return false

/-- Lines 112-151 under dynamic typing, after the two unpacked components are in hand.
The capacity sweep (lines 132-147) runs on the per-task int values collected by
`dynTaskLoop`: every entry it touches has passed an int-only operation in the first
loop, so the typed `capacityOk` is exact for it. -/
def evalDynBody (inst : Instance) (task_resources start_times : PyVal) :
    Except PyErr Int := do
  match ← dynTaskLoop inst task_resources start_times (List.range inst.nb_tasks) with
  | none => return penalty
  | some triples =>
    let trI := triples.map Prod.fst
    let stI := triples.map fun tpl => tpl.2.1
    let ftI := triples.map fun tpl => tpl.2.2
    let pOk ← dynPrecLoop inst start_times ftI (List.range inst.nb_tasks)
    if pOk then
      if capacityOk inst trI stI ftI then pyMaxE ftI
      else return penalty
    else return penalty

/-- Line 106 under dynamic typing, then the body.  The Python `or` short-circuits: the
second `len` is not evaluated when the first already differs from `nb_tasks`. -/
def evalDynChecked (inst : Instance) (task_resources start_times : PyVal) :
    Except PyErr Int := do
  let lt ← pyLen task_resources
  if lt ≠ inst.nb_tasks then return penalty
  else do
    let ls ← pyLen start_times
    if ls ≠ inst.nb_tasks then return penalty
    else evalDynBody inst task_resources start_times

/-- Lines 101-151 of `evaluate_solution` under Python's dynamic typing, on an arbitrary
candidate object: the shape test of line 103, the unpacking of line 105, then the
checks in source order. -/
def evaluateDyn (inst : Instance) (solution : PyVal) : Except PyErr Int :=
  match solution with
  | .list xs | .tuple xs =>
    if xs.length = 2 then evalDynChecked inst (xs.getD 0 (.int 0)) (xs.getD 1 (.int 0))
    else Except.ok penalty
  | _ => Except.ok penalty

/-! ## The instance reader

Lines 1-2 of the module import only `BaseProblem` (from `qubots.base_problem`) and
`random`; the name `os` is never bound.  `_read_instance` (lines 40-86) begins with
`if not os.path.isabs(filename)` (line 43), and Python resolves the global name `os`
there — before the file is opened at line 47 — raising `NameError`.  The rest of the
body (the parsing, lines 47-86) is embedded in `parseInstance`, with the file system
abstracted as a partial map from filenames to contents. -/

/-- The global names bound at module level by lines 1-2 of the source. -/
def moduleGlobals : List String := ["BaseProblem", "random"]

/-- Resolution of a global name in the module namespace: Python raises `NameError` when
the name is not bound. -/
def lookupGlobal (n : String) : Except PyErr Unit :=
  if n ∈ moduleGlobals then Except.ok () else Except.error PyErr.nameError

/-- Python `str.split()` with no arguments: split on runs of whitespace, dropping empty
pieces. -/
def splitWS (s : String) : List String :=
  (s.split Char.isWhitespace).filter fun t => t ≠ ""

/-- Python `int(s)`: `ValueError` when the string is not an integer literal. -/
def pyInt (s : String) : Except PyErr Int :=
  match s.toInt? with
  | some n => Except.ok n
  | none => Except.error PyErr.valueError

/-- Python list indexing (reader side, where the list is well-typed): `IndexError` past
the end. -/
def pyListGet {α : Type} (xs : List α) (i : Nat) : Except PyErr α :=
  if h : i < xs.length then Except.ok (xs.get ⟨i, h⟩) else Except.error PyErr.indexError

/-- A `for` loop that collects one value per element, propagating the first raise. -/
def exceptMapM {α β : Type} (f : α → Except PyErr β) : List α → Except PyErr (List β)
  | [] => Except.ok []
  | x :: xs => do
    let y ← f x
    let ys ← exceptMapM f xs
    Except.ok (y :: ys)

/-- Lines 66-72 for one task line: `durations` and this task's weight per resource
(`int(parts[2*r])`, `int(parts[2*r+1])`). -/
def parseTaskLine (nb_resources : Nat) (parts : List String) :
    Except PyErr (List Int × List Int) := do
  let dw ← exceptMapM
    (fun r => do
      let d ← pyInt (← pyListGet parts (2 * r))
      let w ← pyInt (← pyListGet parts (2 * r + 1))
      Except.ok (d, w))
    (List.range nb_resources)
  Except.ok (dw.map Prod.fst, dw.map Prod.snd)

/-- Lines 78-82 for one successor line.  Successor ids index tasks, hence `Nat`; a
negative id (which Python would treat as indexing from the end of `start_times`) does
not occur in well-formed instances and is clamped by `Int.toNat`. -/
def parseSuccLine (parts : List String) : Except PyErr (Nat × List Nat) := do
  let n ← pyInt (← pyListGet parts 0)
  if 0 < n then do
    let succ ← exceptMapM pyInt parts.tail
    Except.ok (n.toNat, succ.map Int.toNat)
  else Except.ok (n.toNat, [])

/-- Lines 49-86: the parsing of the instance text.  The source appends each task's
weight to `weights[r]` in task order (line 71), so `weights` is the transpose of the
per-task weight rows, built here directly.  `horizon` (line 85) sums
`max(durations_i)`, `max` raising `ValueError` on an empty row. -/
def parseInstance (contents : String) : Except PyErr Instance := do
  let lines := ((contents.splitOn "\n").map String.trim).filter fun l => l ≠ ""
  let firstLine := splitWS (← pyListGet lines 0)
  let nb_tasks := (← pyInt (← pyListGet firstLine 0)).toNat
  let nb_resources := (← pyInt (← pyListGet firstLine 1)).toNat
  let capacity ← exceptMapM pyInt (splitWS (← pyListGet lines 1))
  let rows ← exceptMapM
    (fun i => do parseTaskLine nb_resources (splitWS (← pyListGet lines (2 + i))))
    (List.range nb_tasks)
  let succRows ← exceptMapM
    (fun i => do parseSuccLine (splitWS (← pyListGet lines (2 + nb_tasks + i))))
    (List.range nb_tasks)
  let horizons ← exceptMapM (fun row => pyMaxE row.1) rows
  Except.ok {
    nb_tasks := nb_tasks
    nb_resources := nb_resources
    capacity := capacity
    task_processing_time_data := rows.map Prod.fst
    weights := (List.range nb_resources).map fun r => rows.map fun row => row.2.getD r 0
    successors := succRows.map Prod.snd
    nb_successors := succRows.map Prod.fst
    horizon := horizons.sum }

/-- Lines 40-86: `_read_instance`.  The first executed statement resolves the global
name `os` (line 43); only then would the file be opened (line 47) and parsed. -/
def read_instance (fileContents : String → Option String) (filename : String) :
    Except PyErr Instance := do
  lookupGlobal "os"
  match fileContents filename with
  | some contents => parseInstance contents
  | none => Except.error PyErr.ioError

/-- Lines 24-38: `__init__`, which does nothing but call `_read_instance` and store the
returned tuple. -/
def flexibleCumulativeProblem_init (fileContents : String → Option String)
    (filename : String) : Except PyErr Instance :=
  read_instance fileContents filename

/-! ## Concrete instances used by witnesses and counterexamples -/

/-- A two-task, one-resource instance: capacity `c`, processing times `p0`, `p1`,
weights `w0`, `w1`, no precedences. -/
def tiePairInst (c p0 p1 w0 w1 : Int) : Instance where
  nb_tasks := 2
  nb_resources := 1
  capacity := [c]
  task_processing_time_data := [[p0], [p1]]
  weights := [[w0, w1]]
  successors := [[], []]

/-- Scenario 1 of spec §8: one task, one resource, capacity 5, duration 3, weight 2. -/
def scenario1Inst : Instance where
  nb_tasks := 1
  nb_resources := 1
  capacity := [5]
  task_processing_time_data := [[3]]
  weights := [[2]]
  successors := [[]]

/-- A two-task instance with a precedence: task 0 (duration 3) precedes task 1. -/
def precInst : Instance where
  nb_tasks := 2
  nb_resources := 1
  capacity := [5]
  task_processing_time_data := [[3], [2]]
  weights := [[1, 1]]
  successors := [[1], []]

/-! ## Helper lemmas -/

theorem evaluate_cases (inst : Instance) (tr st : List Int)
    (h1 : tr.length = inst.nb_tasks) (h2 : st.length = inst.nb_tasks) :
    evaluate_solution inst (tr, st) =
      match computeFinishTimes inst tr st with
      | none => penalty
      | some ft =>
        if precedenceOk inst st ft then
          if capacityOk inst tr st ft then pyMax ft else penalty
        else penalty := by
  simp [evaluate_solution, h1, h2]

theorem collectChecks_none_of_mem {f : Nat → Option Int} {l : List Nat} {i : Nat}
    (hi : i ∈ l) (hf : f i = none) : collectChecks f l = none := by
  induction l with
  | nil => cases hi
  | cons a l ih =>
    rcases List.mem_cons.mp hi with rfl | hmem
    · simp [collectChecks, hf]
    · simp only [collectChecks, ih hmem]
      cases f a <;> rfl

theorem collectChecks_some {f : Nat → Option Int} {l : List Nat} {ys : List Int}
    (h : collectChecks f l = some ys) :
    ys.length = l.length ∧ ∀ k, k < l.length → f (l.getD k 0) = some (ys.getD k 0) := by
  induction l generalizing ys with
  | nil =>
    simp only [collectChecks, Option.some.injEq] at h
    subst h
    exact ⟨rfl, fun k hk => absurd hk (Nat.not_lt_zero k)⟩
  | cons a l ih =>
    simp only [collectChecks] at h
    cases hfa : f a with
    | none => rw [hfa] at h; exact absurd h (by simp)
    | some v =>
      rw [hfa] at h
      cases hrest : collectChecks f l with
      | none => rw [hrest] at h; exact absurd h (by simp)
      | some vs =>
        rw [hrest] at h
        simp only [Option.some.injEq] at h
        subst h
        obtain ⟨hlen, hget⟩ := ih hrest
        refine ⟨by simpa using hlen, fun k hk => ?_⟩
        cases k with
        | zero => simpa using hfa
        | succ k =>
          simp only [List.getD_cons_succ]
          exact hget k (Nat.lt_of_succ_lt_succ hk)

theorem taskCheck_eq_some {inst : Instance} {tr st : List Int} {i : Nat} {v : Int}
    (h : taskCheck inst tr st i = some v) :
    v = st.getD i 0 + procTime inst i ((tr.getD i 0).toNat) := by
  unfold taskCheck at h
  split at h
  · cases h
  · split at h
    · cases h
    · exact (Option.some.inj h).symm

theorem taskCheck_none_of_invalid {inst : Instance} (tr st : List Int) (i : Nat)
    (h : tr.getD i 0 < 0 ∨ (inst.nb_resources : Int) ≤ tr.getD i 0) :
    taskCheck inst tr st i = none := by
  unfold taskCheck
  exact if_pos h

theorem taskCheck_none_of_incompatible {inst : Instance} (tr st : List Int) (i : Nat)
    (hr : ¬(tr.getD i 0 < 0 ∨ (inst.nb_resources : Int) ≤ tr.getD i 0))
    (hp : procTime inst i ((tr.getD i 0).toNat) = 0)
    (hw : weightOf inst ((tr.getD i 0).toNat) i = 0) :
    taskCheck inst tr st i = none := by
  unfold taskCheck
  rw [if_neg hr, if_pos ⟨hp, hw⟩]

theorem taskCheck_some_of_ok {inst : Instance} (tr st : List Int) (i : Nat)
    (hr : ¬(tr.getD i 0 < 0 ∨ (inst.nb_resources : Int) ≤ tr.getD i 0))
    (hc : ¬(procTime inst i ((tr.getD i 0).toNat) = 0 ∧
        weightOf inst ((tr.getD i 0).toNat) i = 0)) :
    taskCheck inst tr st i =
      some (st.getD i 0 + procTime inst i ((tr.getD i 0).toNat)) := by
  unfold taskCheck
  rw [if_neg hr, if_neg hc]

theorem le_foldl_max_init : ∀ (l : List Int) (a : Int), a ≤ l.foldl max a := by
  intro l
  induction l with
  | nil => intro a; exact le_refl a
  | cons b l ih =>
    intro a
    simp only [List.foldl_cons]
    exact le_trans (le_max_left a b) (ih (max a b))

theorem foldl_max_le_of_mem {l : List Int} {x : Int} (hx : x ∈ l) (a : Int) :
    x ≤ l.foldl max a := by
  induction l generalizing a with
  | nil => cases hx
  | cons b l ih =>
    simp only [List.foldl_cons]
    rcases List.mem_cons.mp hx with rfl | hmem
    · exact le_trans (le_max_right a x) (le_foldl_max_init l (max a x))
    · exact ih hmem (max a b)

theorem foldl_max_mem (l : List Int) (a : Int) :
    l.foldl max a = a ∨ l.foldl max a ∈ l := by
  induction l generalizing a with
  | nil => exact Or.inl rfl
  | cons b l ih =>
    simp only [List.foldl_cons]
    rcases ih (max a b) with h | h
    · rcases max_choice a b with hm | hm
      · exact Or.inl (by rw [h, hm])
      · exact Or.inr (by rw [h, hm]; exact List.mem_cons_self b l)
    · exact Or.inr (List.mem_cons_of_mem b h)

theorem pyMax_mem {l : List Int} (h : l ≠ []) : pyMax l ∈ l := by
  cases l with
  | nil => exact absurd rfl h
  | cons x xs =>
    unfold pyMax
    rcases foldl_max_mem (x :: xs) ((x :: xs).headD 0) with hm | hm
    · rw [hm]; exact List.mem_cons_self x xs
    · exact hm

theorem le_pyMax {l : List Int} {x : Int} (hx : x ∈ l) : x ≤ pyMax l :=
  foldl_max_le_of_mem hx _

theorem mem_iff_getD {l : List Int} {x : Int} :
    x ∈ l ↔ ∃ i, i < l.length ∧ l.getD i 0 = x := by
  induction l with
  | nil => simp
  | cons a l ih =>
    constructor
    · intro hx
      rcases List.mem_cons.mp hx with rfl | hmem
      · exact ⟨0, Nat.succ_pos _, rfl⟩
      · obtain ⟨i, hi, hg⟩ := ih.mp hmem
        exact ⟨i + 1, Nat.succ_lt_succ hi, hg⟩
    · rintro ⟨i, hi, hg⟩
      cases i with
      | zero => exact hg ▸ List.mem_cons_self a l
      | succ i =>
        exact List.mem_cons_of_mem a
          (ih.mpr ⟨i, Nat.lt_of_succ_lt_succ hi, hg⟩)

theorem sweep_false_of_front (cap : Int) :
    ∀ (p q : List (Int × Int)) (u : Int), p ≠ [] →
      cap < u + (p.map Prod.snd).sum → sweep cap u (p ++ q) = false := by
  intro p
  induction p with
  | nil => intro q u hne _; exact absurd rfl hne
  | cons e p ih =>
    intro q u _ hover
    by_cases hfail : cap < u + e.2
    · simp [sweep, hfail]
    · cases p with
      | nil =>
        simp only [List.map_cons, List.map_nil, List.sum_cons, List.sum_nil,
          add_zero] at hover
        exact absurd hover hfail
      | cons e2 p2 =>
        simp only [List.cons_append, sweep, if_neg hfail]
        apply ih q (u + e.2) (by simp)
        simp only [List.map_cons, List.sum_cons] at hover ⊢
        linarith

/-- The running total over the events with timestamp at most `t`. -/
def deltaSumLE (t : Int) : List (Int × Int) → Int
  | [] => 0
  | e :: rest => (if e.1 ≤ t then e.2 else 0) + deltaSumLE t rest

theorem deltaSumLE_eq_sum_filter (t : Int) (l : List (Int × Int)) :
    deltaSumLE t l = ((l.filter fun e => decide (e.1 ≤ t)).map Prod.snd).sum := by
  induction l with
  | nil => rfl
  | cons e rest ih =>
    by_cases h : e.1 ≤ t
    · simp [deltaSumLE, List.filter_cons, h, ih]
    · simp [deltaSumLE, List.filter_cons, h, ih]

theorem deltaSumLE_perm {l l' : List (Int × Int)} (h : l.Perm l') (t : Int) :
    deltaSumLE t l = deltaSumLE t l' := by
  rw [deltaSumLE_eq_sum_filter, deltaSumLE_eq_sum_filter]
  exact ((h.filter _).map Prod.snd).sum_eq

theorem deltaSumLE_eventsOf {inst : Instance} {tr st ft : List Int} {r : Nat} {t : Int} :
    ∀ {is : List Nat}, (∀ i ∈ is, st.getD i 0 ≤ ft.getD i 0) →
      deltaSumLE t (eventsOf inst tr st ft r is) = usageOn inst tr st ft r t is := by
  intro is
  induction is with
  | nil => intro _; rfl
  | cons i is ih =>
    intro hwf
    have hrest := ih fun j hj => hwf j (List.mem_cons_of_mem i hj)
    have hsf : st.getD i 0 ≤ ft.getD i 0 := hwf i (List.mem_cons_self i is)
    show deltaSumLE t
        ((if tr.getD i 0 = (r : Int) then
            [(st.getD i 0, weightOf inst r i), (ft.getD i 0, -(weightOf inst r i))]
          else []) ++ eventsOf inst tr st ft r is) =
      (if tr.getD i 0 = (r : Int) ∧ st.getD i 0 ≤ t ∧ t < ft.getD i 0 then
        weightOf inst r i
       else 0) + usageOn inst tr st ft r t is
    by_cases hr : tr.getD i 0 = (r : Int)
    · rw [if_pos hr]
      show (if st.getD i 0 ≤ t then weightOf inst r i else 0) +
          ((if ft.getD i 0 ≤ t then -(weightOf inst r i) else 0) +
            deltaSumLE t (eventsOf inst tr st ft r is)) = _
      rw [hrest]
      by_cases hst : st.getD i 0 ≤ t
      · by_cases hft : ft.getD i 0 ≤ t
        · rw [if_pos hst, if_pos hft,
            if_neg (fun hc => absurd hft (not_le.mpr hc.2.2))]
          ring
        · rw [if_pos hst, if_neg hft, if_pos ⟨hr, hst, lt_of_not_le hft⟩]
          ring
      · have hft : ¬ ft.getD i 0 ≤ t := fun hle => hst (le_trans hsf hle)
        rw [if_neg hst, if_neg hft, if_neg (fun hc => hst hc.2.1)]
        ring
    · rw [if_neg hr, if_neg (fun hc => hr hc.1), List.nil_append, hrest, zero_add]

theorem deltaSumLE_eq_zero {t : Int} :
    ∀ {l : List (Int × Int)}, (∀ e ∈ l, ¬ e.1 ≤ t) → deltaSumLE t l = 0 := by
  intro l
  induction l with
  | nil => intro _; rfl
  | cons e l ih =>
    intro hall
    show (if e.1 ≤ t then e.2 else 0) + deltaSumLE t l = 0
    rw [if_neg (hall e (List.mem_cons_self e l)),
      ih fun e2 he2 => hall e2 (List.mem_cons_of_mem e he2), add_zero]

theorem takeWhile_sum_of_sorted {t : Int} :
    ∀ {s : List (Int × Int)}, List.Sorted eventLE s →
      (((s.takeWhile fun e => decide (e.1 ≤ t)).map Prod.snd)).sum = deltaSumLE t s := by
  intro s
  induction s with
  | nil => intro _; rfl
  | cons e rest ih =>
    intro hs
    rw [List.sorted_cons] at hs
    obtain ⟨hhead, hrest⟩ := hs
    by_cases h : e.1 ≤ t
    · rw [List.takeWhile_cons, decide_eq_true h, if_pos rfl, List.map_cons, List.sum_cons,
        ih hrest]
      show e.2 + deltaSumLE t rest = (if e.1 ≤ t then e.2 else 0) + deltaSumLE t rest
      rw [if_pos h]
    · rw [List.takeWhile_cons, decide_eq_false h, if_neg Bool.false_ne_true]
      have hz : deltaSumLE t rest = 0 :=
        deltaSumLE_eq_zero fun e2 he2 hle => h (le_trans (hhead e2 he2) hle)
      show (0 : Int) = (if e.1 ≤ t then e.2 else 0) + deltaSumLE t rest
      rw [if_neg h, hz, add_zero]

theorem capacityOk_false {inst : Instance} {tr st ft : List Int} {r : Nat}
    (hr : r < inst.nb_resources)
    (hs : sweep (inst.capacity.getD r 0) 0
        (List.insertionSort eventLE (eventsFor inst tr st ft r)) = false) :
    capacityOk inst tr st ft = false := by
  by_contra h
  have htrue : capacityOk inst tr st ft = true := eq_true_of_ne_false h
  unfold capacityOk at htrue
  rw [List.all_eq_true] at htrue
  have := htrue r (List.mem_range.mpr hr)
  rw [hs] at this
  cases this

/-- A one-task, two-resource instance in which resource 0 is incompatible with the task
(processing time 0 and weight 0) and resource 1 is compatible (duration 3, weight 2). -/
def incompatInst : Instance where
  nb_tasks := 1
  nb_resources := 2
  capacity := [4, 4]
  task_processing_time_data := [[0, 3]]
  weights := [[0], [2]]
  successors := [[]]

theorem evaluate_shape_fail (inst : Instance) (tr st : List Int)
    (h : ¬(tr.length = inst.nb_tasks ∧ st.length = inst.nb_tasks)) :
    evaluate_solution inst (tr, st) = penalty := by
  unfold evaluate_solution
  exact if_neg h

theorem range_getD {n k : Nat} (h : k < n) : (List.range n).getD k 0 = k := by
  rw [List.getD_eq_getElem _ _ (by simpa using h)]
  simp

theorem except_bind_ok {α β : Type} (a : α) (f : α → Except PyErr β) :
    (Except.ok a : Except PyErr α) >>= f = f a := rfl

/-! ## Claim theorems -/

/-- C7: on the concrete instance of spec §8 Scenario 4 — two tasks on the same
resource of capacity 4, weights 2 and 2, task 0 running `[0, 3)` and task 1 running
`[3, 6)`, so task 0 finishes exactly when task 1 starts, and every other check passes —
`evaluate_solution` returns the maximum finish time 6, not the penalty `10 ^ 9`. -/
theorem c7_scenario4_boundary_feasible :
    evaluate_solution (tiePairInst 4 3 3 2 2) ([0, 0], [0, 3]) = 6 ∧
      (6 : Int) ≠ penalty := by
  constructor
  · decide
  · decide

/-- C10: for every file system and every argument, `_read_instance` — and hence the
whole `FlexibleCumulativeProblem` construction, whose `__init__` merely calls it —
fails with `NameError` before reading the file: line 43 references `os.path`, but lines
1-2 import only `BaseProblem` and `random`, so the global name `os` is unbound and no
`Instance` is ever built by this code as written. -/
theorem c10_read_instance_name_error (fileContents : String → Option String)
    (filename : String) :
    read_instance fileContents filename = Except.error PyErr.nameError ∧
      flexibleCumulativeProblem_init fileContents filename =
        Except.error PyErr.nameError := by
  constructor
  · rfl
  · rfl

/-- C9: determinism and purity.  Two calls of the evaluator on equal instances and
equal candidates — both the well-typed evaluator and the dynamically typed one —
return equal results.  The evaluator of lines 88-151 is representable as this total
function of its two inputs because it writes only the local lists `finish_times` and
`events`, mutating neither `self` nor the candidate. -/
theorem c9_deterministic (i1 i2 : Instance) (s1 s2 : List Int × List Int)
    (v1 v2 : PyVal) (hi : i1 = i2) (hs : s1 = s2) (hv : v1 = v2) :
    evaluate_solution i1 s1 = evaluate_solution i2 s2 ∧
      evaluateDyn i1 v1 = evaluateDyn i2 v2 := by
  subst hi
  subst hs
  subst hv
  exact ⟨rfl, rfl⟩

theorem c9_deterministic_witness :
    evaluate_solution scenario1Inst ([0], [0]) =
        evaluate_solution scenario1Inst ([0], [0]) ∧
      evaluateDyn scenario1Inst (PyVal.tuple [PyVal.list [PyVal.int 0],
          PyVal.list [PyVal.int 0]]) =
        evaluateDyn scenario1Inst (PyVal.tuple [PyVal.list [PyVal.int 0],
          PyVal.list [PyVal.int 0]]) :=
  c9_deterministic scenario1Inst scenario1Inst ([0], [0]) ([0], [0])
    (PyVal.tuple [PyVal.list [PyVal.int 0], PyVal.list [PyVal.int 0]])
    (PyVal.tuple [PyVal.list [PyVal.int 0], PyVal.list [PyVal.int 0]]) rfl rfl rfl

/-- C8: a single sentinel.  For every instance and well-typed candidate pair, either
every check passed — shape, per-task resource validity (`computeFinishTimes` is
`some`), precedence, capacity — and the score is the makespan `pyMax ft`, or the score
is exactly `10 ^ 9` (the Python float `1e9`).  All violation classes therefore return
the same indistinguishable sentinel value. -/
theorem c8_single_sentinel (inst : Instance) (tr st : List Int) :
    evaluate_solution inst (tr, st) = 10 ^ 9 ∨
      ∃ ft, tr.length = inst.nb_tasks ∧ st.length = inst.nb_tasks ∧
        computeFinishTimes inst tr st = some ft ∧
        precedenceOk inst st ft = true ∧ capacityOk inst tr st ft = true ∧
        evaluate_solution inst (tr, st) = pyMax ft := by
  by_cases h1 : tr.length = inst.nb_tasks ∧ st.length = inst.nb_tasks
  · have hcase := evaluate_cases inst tr st h1.1 h1.2
    cases hft : computeFinishTimes inst tr st with
    | none =>
      rw [hft] at hcase
      exact Or.inl hcase
    | some ft =>
      rw [hft] at hcase
      by_cases hp : precedenceOk inst st ft
      · by_cases hc : capacityOk inst tr st ft
        · refine Or.inr ⟨ft, h1.1, h1.2, rfl, hp, hc, ?_⟩
          rw [hcase]
          show (if precedenceOk inst st ft then
              if capacityOk inst tr st ft then pyMax ft else penalty
            else penalty) = pyMax ft
          rw [if_pos hp, if_pos hc]
        · refine Or.inl ?_
          rw [hcase]
          show (if precedenceOk inst st ft then
              if capacityOk inst tr st ft then pyMax ft else penalty
            else penalty) = 10 ^ 9
          rw [if_pos hp, if_neg hc]
          rfl
      · refine Or.inl ?_
        rw [hcase]
        show (if precedenceOk inst st ft then
            if capacityOk inst tr st ft then pyMax ft else penalty
          else penalty) = 10 ^ 9
        rw [if_neg hp]
        rfl
  · exact Or.inl (evaluate_shape_fail inst tr st h1)

/-- C3: makespan correctness.  For every well-typed schedule that passes the shape
check (both lengths equal `nb_tasks`), the per-task resource-validity checks
(`computeFinishTimes` returns `some ft`), the precedence check and the cumulative
capacity check, and with `nb_tasks` positive, `evaluate_solution` returns exactly the
maximum over all tasks `i` of
`finish_time[i] = start_time[i] + processing_time[i][resource_of[i]]`. -/
theorem c3_makespan_correct (inst : Instance) (tr st ft : List Int)
    (hn : 0 < inst.nb_tasks)
    (h1 : tr.length = inst.nb_tasks) (h2 : st.length = inst.nb_tasks)
    (hft : computeFinishTimes inst tr st = some ft)
    (hprec : precedenceOk inst st ft = true)
    (hcap : capacityOk inst tr st ft = true) :
    (∀ i, i < inst.nb_tasks →
        st.getD i 0 + procTime inst i ((tr.getD i 0).toNat) ≤
          evaluate_solution inst (tr, st)) ∧
      ∃ i, i < inst.nb_tasks ∧
        evaluate_solution inst (tr, st) =
          st.getD i 0 + procTime inst i ((tr.getD i 0).toNat) := by
  have heval : evaluate_solution inst (tr, st) = pyMax ft := by
    rw [evaluate_cases inst tr st h1 h2, hft]
    show (if precedenceOk inst st ft then
        if capacityOk inst tr st ft then pyMax ft else penalty
      else penalty) = pyMax ft
    rw [if_pos hprec, if_pos hcap]
  obtain ⟨hlen, hget⟩ := collectChecks_some hft
  rw [List.length_range] at hlen
  have hfi : ∀ i, i < inst.nb_tasks →
      ft.getD i 0 = st.getD i 0 + procTime inst i ((tr.getD i 0).toNat) := by
    intro i hi
    have := hget i (by simpa using hi)
    rw [range_getD hi] at this
    exact taskCheck_eq_some this
  constructor
  · intro i hi
    rw [heval, ← hfi i hi]
    exact le_pyMax (mem_iff_getD.mpr ⟨i, by rw [hlen]; exact hi, rfl⟩)
  · have hne : ft ≠ [] := by
      intro hemp
      rw [hemp] at hlen
      rw [← hlen] at hn
      exact absurd hn (by simp)
    obtain ⟨i, hi, hgi⟩ := mem_iff_getD.mp (pyMax_mem hne)
    rw [hlen] at hi
    exact ⟨i, hi, by rw [heval, ← hgi, hfi i hi]⟩

theorem c3_makespan_correct_witness :
    (∀ i, i < scenario1Inst.nb_tasks →
        List.getD ([0] : List Int) i 0 +
            procTime scenario1Inst i ((List.getD ([0] : List Int) i 0).toNat) ≤
          evaluate_solution scenario1Inst ([0], [0])) ∧
      ∃ i, i < scenario1Inst.nb_tasks ∧
        evaluate_solution scenario1Inst ([0], [0]) =
          List.getD ([0] : List Int) i 0 +
            procTime scenario1Inst i ((List.getD ([0] : List Int) i 0).toNat) :=
  c3_makespan_correct scenario1Inst [0] [0] [3] (by decide) rfl rfl (by decide)
    (by decide) (by decide)

/-- C5: precedence semantics.  With the shape and per-task checks passed, the evaluator
returns the penalty whenever some task `i` has a successor `j` with
`finish_time[i] > start_time[j]`; and the precedence check succeeds whenever every such
pair satisfies `finish_time[i] ≤ start_time[j]` — in particular equality
(`finish_time[i] == start_time[j]`, a successor starting exactly when its predecessor
finishes) is not a failure. -/
theorem c5_precedence (inst : Instance) (tr st ft : List Int)
    (h1 : tr.length = inst.nb_tasks) (h2 : st.length = inst.nb_tasks)
    (hft : computeFinishTimes inst tr st = some ft) :
    (∀ i, i < inst.nb_tasks → ∀ j ∈ inst.successors.getD i [],
        st.getD j 0 < ft.getD i 0 → evaluate_solution inst (tr, st) = penalty) ∧
      ((∀ i, i < inst.nb_tasks → ∀ j ∈ inst.successors.getD i [],
          ft.getD i 0 ≤ st.getD j 0) → precedenceOk inst st ft = true) := by
  constructor
  · intro i hi j hj hlt
    have hnot : ¬ precedenceOk inst st ft = true := by
      intro htrue
      unfold precedenceOk at htrue
      rw [List.all_eq_true] at htrue
      have h3 := htrue i (List.mem_range.mpr hi)
      rw [List.all_eq_true] at h3
      exact absurd (of_decide_eq_true (h3 j hj)) (not_le.mpr hlt)
    rw [evaluate_cases inst tr st h1 h2, hft]
    show (if precedenceOk inst st ft then
        if capacityOk inst tr st ft then pyMax ft else penalty
      else penalty) = penalty
    rw [if_neg hnot]
  · intro hall
    unfold precedenceOk
    rw [List.all_eq_true]
    intro i hi
    rw [List.all_eq_true]
    intro j hj
    exact decide_eq_true (hall i (List.mem_range.mp hi) j hj)

theorem c5_precedence_witness :
    evaluate_solution precInst ([0, 0], [0, 2]) = penalty ∧
      precedenceOk precInst [0, 3] [3, 5] = true :=
  ⟨(c5_precedence precInst [0, 0] [0, 2] [3, 4] rfl rfl (by decide)).1 0 (by decide) 1
      (by decide) (by decide),
   (c5_precedence precInst [0, 0] [0, 3] [3, 5] rfl rfl (by decide)).2 (by decide)⟩

/-- C6: per-task resource validity.  For every well-shaped schedule and every task `i`
with `r = resource_of[i]`: an out-of-range `r` gives the penalty; an in-range `r` with
`processing_time[i][r] = 0` and `weight[r][i] = 0` (incompatible resource) gives the
penalty; and any other combination passes the per-task check of lines 112-123,
producing `finish_time[i] = start_time[i] + processing_time[i][r]`. -/
theorem c6_resource_validity (inst : Instance) (tr st : List Int) (i : Nat)
    (h1 : tr.length = inst.nb_tasks) (h2 : st.length = inst.nb_tasks)
    (hi : i < inst.nb_tasks) :
    ((tr.getD i 0 < 0 ∨ (inst.nb_resources : Int) ≤ tr.getD i 0) →
        evaluate_solution inst (tr, st) = penalty) ∧
      (¬(tr.getD i 0 < 0 ∨ (inst.nb_resources : Int) ≤ tr.getD i 0) →
        procTime inst i ((tr.getD i 0).toNat) = 0 →
        weightOf inst ((tr.getD i 0).toNat) i = 0 →
        evaluate_solution inst (tr, st) = penalty) ∧
      (¬(tr.getD i 0 < 0 ∨ (inst.nb_resources : Int) ≤ tr.getD i 0) →
        ¬(procTime inst i ((tr.getD i 0).toNat) = 0 ∧
            weightOf inst ((tr.getD i 0).toNat) i = 0) →
        taskCheck inst tr st i =
          some (st.getD i 0 + procTime inst i ((tr.getD i 0).toNat))) := by
  have hpen : taskCheck inst tr st i = none →
      evaluate_solution inst (tr, st) = penalty := by
    intro hnone
    have hcf : computeFinishTimes inst tr st = none :=
      collectChecks_none_of_mem (List.mem_range.mpr hi) hnone
    rw [evaluate_cases inst tr st h1 h2, hcf]
  exact ⟨fun h => hpen (taskCheck_none_of_invalid tr st i h),
    fun hr hp hw => hpen (taskCheck_none_of_incompatible tr st i hr hp hw),
    fun hr hc => taskCheck_some_of_ok tr st i hr hc⟩

theorem c6_resource_validity_witness :
    evaluate_solution incompatInst ([2], [0]) = penalty ∧
      evaluate_solution incompatInst ([0], [0]) = penalty ∧
      taskCheck incompatInst [1] [0] 0 = some 3 :=
  ⟨(c6_resource_validity incompatInst [2] [0] 0 rfl rfl (by decide)).1 (by decide),
   (c6_resource_validity incompatInst [0] [0] 0 rfl rfl (by decide)).2.1 (by decide)
      (by decide) (by decide),
   (c6_resource_validity incompatInst [1] [0] 0 rfl rfl (by decide)).2.2 (by decide)
      (by decide)⟩

/-- C4: capacity overflow is penalized.  For every resource `r` and every well-typed
schedule that passes the shape, resource-validity and precedence checks, if at some
instant `t` the summed weight of the tasks assigned to `r` whose half-open execution
interval `[start, finish)` contains `t` exceeds `capacity[r]`, then
`evaluate_solution` returns the penalty.  The hypotheses `hcap0` and `hwf` are the §3
data-model facts that capacities are non-negative and that finish times are not before
start times (processing times are non-negative). -/
theorem c4_capacity_overflow (inst : Instance) (tr st ft : List Int) (r : Nat) (t : Int)
    (h1 : tr.length = inst.nb_tasks) (h2 : st.length = inst.nb_tasks)
    (hft : computeFinishTimes inst tr st = some ft)
    (hprec : precedenceOk inst st ft = true)
    (hr : r < inst.nb_resources)
    (hcap0 : 0 ≤ inst.capacity.getD r 0)
    (hwf : ∀ i, i < inst.nb_tasks → st.getD i 0 ≤ ft.getD i 0)
    (hover : inst.capacity.getD r 0 < usageAt inst tr st ft r t) :
    evaluate_solution inst (tr, st) = penalty := by
  have hperm : (List.insertionSort eventLE (eventsFor inst tr st ft r)).Perm
      (eventsFor inst tr st ft r) := List.perm_insertionSort eventLE _
  have hsorted : List.Sorted eventLE
      (List.insertionSort eventLE (eventsFor inst tr st ft r)) :=
    List.sorted_insertionSort eventLE _
  have hds : deltaSumLE t (List.insertionSort eventLE (eventsFor inst tr st ft r)) =
      usageAt inst tr st ft r t := by
    rw [deltaSumLE_perm hperm t]
    exact deltaSumLE_eventsOf fun i hi => hwf i (List.mem_range.mp hi)
  have hsum : (((List.insertionSort eventLE (eventsFor inst tr st ft r)).takeWhile
      fun e => decide (e.1 ≤ t)).map Prod.snd).sum = usageAt inst tr st ft r t := by
    rw [takeWhile_sum_of_sorted hsorted, hds]
  have hne : ((List.insertionSort eventLE (eventsFor inst tr st ft r)).takeWhile
      fun e => decide (e.1 ≤ t)) ≠ [] := by
    intro hemp
    rw [hemp] at hsum
    simp only [List.map_nil, List.sum_nil] at hsum
    omega
  have hsweep : sweep (inst.capacity.getD r 0) 0
      (List.insertionSort eventLE (eventsFor inst tr st ft r)) = false := by
    conv_lhs => rw [← List.takeWhile_append_dropWhile (fun e => decide (e.1 ≤ t))
      (List.insertionSort eventLE (eventsFor inst tr st ft r))]
    exact sweep_false_of_front (inst.capacity.getD r 0) _ _ 0 hne (by rw [hsum]; omega)
  rw [evaluate_cases inst tr st h1 h2, hft]
  show (if precedenceOk inst st ft then
      if capacityOk inst tr st ft then pyMax ft else penalty
    else penalty) = penalty
  rw [if_pos hprec,
    if_neg (by rw [capacityOk_false hr hsweep]; exact Bool.false_ne_true)]

theorem c4_capacity_overflow_witness :
    evaluate_solution (tiePairInst 4 2 2 3 3) ([0, 0], [0, 0]) = penalty :=
  c4_capacity_overflow (tiePairInst 4 2 2 3 3) [0, 0] [0, 0] [2, 2] 0 0 rfl rfl
    (by decide) (by decide) (by decide) (by decide) (by decide) (by decide)

/-- C1 fails on the code: the sort at line 142 orders events by timestamp only, the
check at lines 144-147 runs after each individual delta, and Python's stable sort keeps
same-timestamp events in task-index order.  Concretely (capacity 2, both weights 2):
task 1 runs `[0, 5)` and task 0 runs `[5, 10)`, so task 1 finishes exactly when task 0
starts; the instantaneous usage is 2 at both start instants (usage is constant between
events), never exceeding the capacity, yet the evaluator returns the penalty, because
the start delta of the lower-indexed task 0 is applied before the finish delta of
task 1, transiently reading 4 > 2.  Renumbering the same two intervals so that the
finishing task has the lower index (last conjunct) makes the very same schedule
feasible with makespan 10 — contradicting "regardless of which task has the lower
index". -/
theorem c1_simultaneous_counterexample :
    evaluate_solution (tiePairInst 2 5 5 2 2) ([0, 0], [5, 0]) = penalty ∧
      computeFinishTimes (tiePairInst 2 5 5 2 2) [0, 0] [5, 0] = some [10, 5] ∧
      usageAt (tiePairInst 2 5 5 2 2) [0, 0] [5, 0] [10, 5] 0 0 = 2 ∧
      usageAt (tiePairInst 2 5 5 2 2) [0, 0] [5, 0] [10, 5] 0 5 = 2 ∧
      evaluate_solution (tiePairInst 2 5 5 2 2) ([0, 0], [0, 5]) = 10 := by
  refine ⟨by decide, by decide, by decide, by decide, by decide⟩

/-- C1 (amended): in the capacity check, events are sorted stably by timestamp and the
running usage is compared with `capacity[r]` after each individual delta; ties keep
task-index order, each task's start event preceding its finish event.  Hence a task
finishing at `t` and another starting at `t` causes no transient overflow when the
finishing task has the lower index: on the two-task one-resource family in which
task 0 runs `[s0, s0 + p0)` and task 1 starts exactly at `s0 + p0`, with each weight at
most the capacity, the evaluator returns the makespan — while
`c1_simultaneous_counterexample` shows the penalty when the starting task has the lower
index. -/
theorem c1_tie_amended (c p0 p1 w0 w1 s0 : Int)
    (hp0 : 0 ≤ p0) (hp1 : 0 ≤ p1) (hw0 : 0 ≤ w0) (hw1 : 0 ≤ w1)
    (hw0c : w0 ≤ c) (hw1c : w1 ≤ c)
    (hk0 : ¬(p0 = 0 ∧ w0 = 0)) (hk1 : ¬(p1 = 0 ∧ w1 = 0)) :
    evaluate_solution (tiePairInst c p0 p1 w0 w1) ([0, 0], [s0, s0 + p0]) =
      s0 + p0 + p1 := by
  have ht0 : taskCheck (tiePairInst c p0 p1 w0 w1) [0, 0] [s0, s0 + p0] 0 =
      some (s0 + p0) := by
    show (if (0 : Int) < 0 ∨ (1 : Int) ≤ 0 then none
      else if p0 = 0 ∧ w0 = 0 then none else some (s0 + p0)) = some (s0 + p0)
    rw [if_neg (by omega), if_neg hk0]
  have ht1 : taskCheck (tiePairInst c p0 p1 w0 w1) [0, 0] [s0, s0 + p0] 1 =
      some (s0 + p0 + p1) := by
    show (if (0 : Int) < 0 ∨ (1 : Int) ≤ 0 then none
      else if p1 = 0 ∧ w1 = 0 then none else some (s0 + p0 + p1)) = some (s0 + p0 + p1)
    rw [if_neg (by omega), if_neg hk1]
  have hft : computeFinishTimes (tiePairInst c p0 p1 w0 w1) [0, 0] [s0, s0 + p0] =
      some [s0 + p0, s0 + p0 + p1] := by
    show collectChecks (taskCheck (tiePairInst c p0 p1 w0 w1) [0, 0] [s0, s0 + p0])
        [0, 1] = some [s0 + p0, s0 + p0 + p1]
    simp only [collectChecks, ht0, ht1]
  have hprec : precedenceOk (tiePairInst c p0 p1 w0 w1) [s0, s0 + p0]
      [s0 + p0, s0 + p0 + p1] = true := rfl
  have hsort : List.insertionSort eventLE
      [(s0, w0), (s0 + p0, -w0), (s0 + p0, w1), (s0 + p0 + p1, -w1)] =
      [(s0, w0), (s0 + p0, -w0), (s0 + p0, w1), (s0 + p0 + p1, -w1)] := by
    have h34 : eventLE (s0 + p0, w1) (s0 + p0 + p1, -w1) := by
      show s0 + p0 ≤ s0 + p0 + p1
      linarith
    have h23 : eventLE (s0 + p0, -w0) (s0 + p0, w1) := le_refl (s0 + p0)
    have h12 : eventLE (s0, w0) (s0 + p0, -w0) := by
      show s0 ≤ s0 + p0
      linarith
    show List.orderedInsert eventLE (s0, w0) (List.orderedInsert eventLE (s0 + p0, -w0)
        (List.orderedInsert eventLE (s0 + p0, w1)
          (List.orderedInsert eventLE (s0 + p0 + p1, -w1) []))) = _
    rw [List.orderedInsert_nil, List.orderedInsert_of_le eventLE [] h34,
      List.orderedInsert_of_le eventLE [(s0 + p0 + p1, -w1)] h23,
      List.orderedInsert_of_le eventLE [(s0 + p0, w1), (s0 + p0 + p1, -w1)] h12]
  have hsweep : sweep c 0
      [(s0, w0), (s0 + p0, -w0), (s0 + p0, w1), (s0 + p0 + p1, -w1)] = true := by
    show (if c < 0 + w0 then false
      else if c < 0 + w0 + -w0 then false
      else if c < 0 + w0 + -w0 + w1 then false
      else if c < 0 + w0 + -w0 + w1 + -w1 then false
      else true) = true
    rw [if_neg (by linarith), if_neg (by linarith), if_neg (by linarith),
      if_neg (by linarith)]
  have hcap : capacityOk (tiePairInst c p0 p1 w0 w1) [0, 0] [s0, s0 + p0]
      [s0 + p0, s0 + p0 + p1] = true := by
    show (sweep c 0 (List.insertionSort eventLE
        [(s0, w0), (s0 + p0, -w0), (s0 + p0, w1), (s0 + p0 + p1, -w1)]) && true) = true
    rw [hsort, hsweep]
    rfl
  rw [evaluate_cases (tiePairInst c p0 p1 w0 w1) [0, 0] [s0, s0 + p0] rfl rfl, hft]
  show (if precedenceOk (tiePairInst c p0 p1 w0 w1) [s0, s0 + p0]
        [s0 + p0, s0 + p0 + p1] then
      if capacityOk (tiePairInst c p0 p1 w0 w1) [0, 0] [s0, s0 + p0]
          [s0 + p0, s0 + p0 + p1] then
        pyMax [s0 + p0, s0 + p0 + p1]
      else penalty
    else penalty) = s0 + p0 + p1
  rw [if_pos hprec, if_pos hcap]
  show max (max (s0 + p0) (s0 + p0)) (s0 + p0 + p1) = s0 + p0 + p1
  rw [max_self]
  exact max_eq_right (by linarith)

theorem c1_tie_amended_witness :
    evaluate_solution (tiePairInst 2 5 5 2 2) ([0, 0], [0, 0 + 5]) = 0 + 5 + 5 :=
  c1_tie_amended 2 5 5 2 2 0 (by decide) (by decide) (by decide) (by decide)
    (by decide) (by decide) (by decide) (by decide)

/-- C2 fails on the code: the shape guard of line 103 checks only that the candidate is
a list or tuple of length 2; line 106 then calls `len` on the two components, which
raises `TypeError` when a component is not a sequence.  The candidate `(0, 0)` — a
tuple of the right arity with int components — makes `evaluate_solution` raise instead
of returning the penalty. -/
theorem c2_malformed_counterexample :
    evaluateDyn scenario1Inst (PyVal.tuple [PyVal.int 0, PyVal.int 0]) =
      Except.error PyErr.typeError := rfl

/-- C2 (amended): `evaluate_solution` returns the penalty, and does not raise, for the
malformed shapes its guards cover — a candidate that is not a list or tuple, a list or
tuple whose length is not 2, or a pair whose components are sequences (so `len`
succeeds) of the wrong length, the second not even inspected when the first length
already differs.  A pair with a non-sequence component, however, raises `TypeError`
(`c2_malformed_counterexample`), so not every malformed candidate is scored. -/
theorem c2_malformed_amended (inst : Instance) (v a b : PyVal) (la lb : Nat) :
    (pyIsListOrTuple v = false → evaluateDyn inst v = Except.ok penalty) ∧
      (∀ xs, (v = PyVal.list xs ∨ v = PyVal.tuple xs) → xs.length ≠ 2 →
        evaluateDyn inst v = Except.ok penalty) ∧
      (pyLen a = Except.ok la → la ≠ inst.nb_tasks →
        evaluateDyn inst (PyVal.tuple [a, b]) = Except.ok penalty) ∧
      (pyLen a = Except.ok la → la = inst.nb_tasks → pyLen b = Except.ok lb →
        lb ≠ inst.nb_tasks →
        evaluateDyn inst (PyVal.tuple [a, b]) = Except.ok penalty) := by
  refine ⟨?_, ?_, ?_, ?_⟩
  · intro hv
    cases v with
    | int n => rfl
    | str s => rfl
    | list xs => exact absurd hv (by simp [pyIsListOrTuple])
    | tuple xs => exact absurd hv (by simp [pyIsListOrTuple])
  · rintro xs (rfl | rfl) hlen
    · show (if xs.length = 2 then
          evalDynChecked inst (xs.getD 0 (PyVal.int 0)) (xs.getD 1 (PyVal.int 0))
        else Except.ok penalty) = Except.ok penalty
      exact if_neg hlen
    · show (if xs.length = 2 then
          evalDynChecked inst (xs.getD 0 (PyVal.int 0)) (xs.getD 1 (PyVal.int 0))
        else Except.ok penalty) = Except.ok penalty
      exact if_neg hlen
  · intro hla hne
    show evalDynChecked inst a b = Except.ok penalty
    unfold evalDynChecked
    rw [hla, except_bind_ok, if_pos hne]
    rfl
  · intro hla heq hlb hne
    show evalDynChecked inst a b = Except.ok penalty
    unfold evalDynChecked
    rw [hla, except_bind_ok, if_neg (fun hcon => hcon heq), hlb, except_bind_ok,
      if_pos hne]
    rfl

theorem c2_malformed_amended_witness :
    evaluateDyn scenario1Inst (PyVal.int 3) = Except.ok penalty ∧
      evaluateDyn scenario1Inst (PyVal.tuple []) = Except.ok penalty ∧
      evaluateDyn scenario1Inst
          (PyVal.tuple [PyVal.list [PyVal.int 0, PyVal.int 0], PyVal.int 5]) =
        Except.ok penalty ∧
      evaluateDyn scenario1Inst
          (PyVal.tuple [PyVal.list [PyVal.int 0], PyVal.list []]) =
        Except.ok penalty :=
  ⟨(c2_malformed_amended scenario1Inst (PyVal.int 3) (PyVal.int 0) (PyVal.int 0)
      0 0).1 rfl,
   (c2_malformed_amended scenario1Inst (PyVal.tuple []) (PyVal.int 0) (PyVal.int 0)
      0 0).2.1 [] (Or.inr rfl) (by decide),
   (c2_malformed_amended scenario1Inst (PyVal.int 0)
      (PyVal.list [PyVal.int 0, PyVal.int 0]) (PyVal.int 5) 2 0).2.2.1 rfl (by decide),
   (c2_malformed_amended scenario1Inst (PyVal.int 0) (PyVal.list [PyVal.int 0])
      (PyVal.list []) 1 0).2.2.2 rfl rfl rfl (by decide)⟩
